import Mathlib

/-!
Verification of the distributed job-coordination core of the Corkscrew-Filter
optimizer: the append-only result log (data_store.py), state replay and the
claim protocol (job_manager.py, worker.py), the scoring policy (scoring.py),
artifact retention (data_store.py), and the push-retry transport
(git_utils.py).

Modelling conventions:
- A log record (one JSONL line, a Python dict) is a `Record` structure whose
  fields are `Option`-valued; `none` means the key is absent from the dict.
- JSON values stored under the `parameters` key are modelled by `PVal`,
  whose dictionary and array payloads carry flat `JVal` leaves; the source
  only ever inspects the top-level type (dict or not) and emptiness.
- Metric values are `JVal`; `calculate_score` reads only the presence of the
  key `error` and the numeric values of `separation_efficiency` and
  `delta_p`.  Python booleans are numeric (`True == 1`), which the model
  reflects; a string in a numeric position would raise `TypeError` in Python
  and is mapped to the default here, a branch no theorem depends on.
- Python float tuples compare lexicographically; the scores produced by
  `calculate_score` are 4-tuples of rationals extended with the two
  infinities, ordered lexicographically via `Prod.Lex`.
- The log file is a `List Record`; the filesystem is a set of paths given as
  `String → Bool`.  Functions that in Python mutate the file or the disk
  instead return the new file or disk value, and a raised exception is an
  `Except.error` carrying the message.
-/

/-- Flat JSON leaf values (numbers, strings, booleans, null). -/
inductive JVal where
  | num (q : ℚ)
  | str (s : String)
  | boolean (b : Bool)
  | null
deriving DecidableEq, Repr

/-- A JSON value as stored under the `parameters` key of a record.  The
source code only checks `isinstance(value, dict)` and truthiness, so one
level of structure suffices. -/
inductive PVal where
  | obj (fields : List (String × JVal))
  | arr (elems : List JVal)
  | str (s : String)
  | num (q : ℚ)
  | boolean (b : Bool)
  | null
deriving DecidableEq, Repr

/-- A metrics dictionary: measurement name to JSON leaf value. -/
abbrev Metrics := List (String × JVal)

/-- One JSONL log record, i.e. one Python dict.  `none` models an absent
key.  These are the keys read anywhere in the coordination core. -/
structure Record where
  id : Option String
  timestamp : Option String
  status : Option String
  parameters : Option PVal
  worker_id : Option String
  metrics : Option Metrics
  error : Option String
  images : Option (List String)
  artifact_stl_path : Option String
deriving DecidableEq, Repr

/-- Rationals extended with minus and plus infinity: the value space of the
Python float components of a score tuple (no NaN arises in the source). -/
abbrev XRat := WithBot (WithTop ℚ)

/-- A finite extended rational. -/
def xfin (q : ℚ) : XRat := ((q : WithTop ℚ) : XRat)

/-- Plus infinity, the Python value float of inf. -/
def xinf : XRat := ((⊤ : WithTop ℚ) : XRat)

/-- Negation on extended rationals (swaps the infinities). -/
def xneg (x : XRat) : XRat :=
  WithBot.recBotCoe xinf
    (fun t => WithTop.recTopCoe (⊥ : XRat) (fun q => xfin (-q)) t) x

/-- Multiplication by a positive rational constant (infinities are fixed),
modelling `x * c` for the positive literal constants of scoring.py. -/
def xscale (c : ℚ) (x : XRat) : XRat := x.map (fun t => t.map (fun q => q * c))

/-- Division by a positive rational constant (infinities are fixed),
modelling `x / c` for the positive literal constants of scoring.py. -/
def xdivc (x : XRat) (c : ℚ) : XRat := x.map (fun t => t.map (fun q => q / c))

/-- A score: the 4-tuple of floats returned by `calculate_score`, compared
lexicographically exactly as Python compares tuples. -/
abbrev Score := XRat ×ₗ (XRat ×ₗ (XRat ×ₗ XRat))

/-- Builds a score tuple. -/
def mkScore (a b c d : XRat) : Score := toLex (a, toLex (b, toLex (c, d)))

/-- Constant from scoring.py: `TARGET_EFFICIENCY_PERCENT = 99.95`. -/
def TARGET_EFFICIENCY_PERCENT : ℚ := 99.95

/-- Constant from scoring.py: `RHO_AIR = 1.225`. -/
def RHO_AIR : ℚ := 1.225

/-- Constant from scoring.py: `PSI_TO_PA = 6894.76`. -/
def PSI_TO_PA : ℚ := 6894.76

/-- Reads a numeric metric: `metrics.get(key, default)` followed by the
`is None` replacement with the same default, as in `calculate_score`.
Python booleans are numbers; a string here would raise `TypeError` further
down in Python and is mapped to the default (unused by any theorem). -/
def metricNum (metrics : Metrics) (key : String) (dflt : XRat) : XRat :=
  match metrics.lookup key with
  | some (JVal.num q) => xfin q
  | some (JVal.boolean b) => xfin (if b then 1 else 0)
  | some JVal.null => dflt
  | some (JVal.str _) => dflt
  | none => dflt

/-- Translation of `calculate_score` from scoring.py: empty metrics or any
`error` key rank lowest; otherwise the 4-tuple is
`(validity, target_met, -pressure_psi, efficiency)` when the efficiency
target is met and `(validity, target_met, efficiency, -pressure_psi)`
otherwise. -/
def calculate_score (metrics : Metrics) : Score :=
  if metrics = [] ∨ (metrics.lookup "error").isSome then
    mkScore (xfin (-1)) (xfin 0) (xfin 0) (xfin 0)
  else
    let efficiency_pct := metricNum metrics "separation_efficiency" (xfin 0)
    let delta_p_kinematic := metricNum metrics "delta_p" xinf
    let pressure_pa := xscale RHO_AIR delta_p_kinematic
    let pressure_psi := xdivc pressure_pa PSI_TO_PA
    let validity_score := xfin 1
    if xfin TARGET_EFFICIENCY_PERCENT ≤ efficiency_pct then
      mkScore validity_score (xfin 1) (xneg pressure_psi) efficiency_pct
    else
      mkScore validity_score (xfin 0) efficiency_pct (xneg pressure_psi)

/-- Sort key used by `get_top_runs` in data_store.py: the score of the
metrics of the record, defaulting to the empty dict when the key is absent. -/
def runScore (r : Record) : Score := calculate_score (r.metrics.getD [])

/-- The descending comparison used by `sorted(..., reverse=True)`: an
earlier element has a greater-or-equal key. -/
def runGe (a b : Record) : Prop := runScore b ≤ runScore a

instance : DecidableRel runGe :=
  fun a b => inferInstanceAs (Decidable (runScore b ≤ runScore a))

instance : IsTotal Record runGe := ⟨fun a b => le_total (runScore b) (runScore a)⟩

instance : IsTrans Record runGe := ⟨fun _ _ _ h1 h2 => le_trans h2 h1⟩

/-- Translation of `DataStore.get_top_runs`: sort the WHOLE history by
score, descending, and take the first `n`.  `List.insertionSort runGe` is
the stable descending sort, which is exactly what the stable Python
`sorted(history, key=..., reverse=True)` produces. -/
def get_top_runs (history : List Record) (n : Nat) : List Record :=
  (List.insertionSort runGe history).take n

/-- Check from `DataStore.append_result`: parameters must be a non-empty
dictionary.  Returns true when the field would be rejected (absent, not a
dict, or an empty dict). -/
def invalidParams (p : Option PVal) : Bool :=
  match p with
  | some (PVal.obj fields) => fields.isEmpty
  | some _ => true
  | none => true

/-- Translation of `DataStore.append_result`.  `freshId` and `now` stand for
the `uuid4` and current-time values the source generates for absent `id` and
`timestamp` keys.  The result is the raised exception (if any) paired with
the log file content after the call; every validation failure happens before
the file is opened, so the file component is unchanged on error. -/
def append_result (freshId now : String) (result : Record) (log : List Record) :
    Except String Unit × List Record :=
  let r1 := if result.id.isNone then { result with id := some freshId } else result
  let r2 := if r1.timestamp.isNone then { r1 with timestamp := some now } else r1
  if r2.id.isNone then (Except.error "Missing required field: id", log)
  else if r2.timestamp.isNone then (Except.error "Missing required field: timestamp", log)
  else if r2.status.isNone then (Except.error "Missing required field: status", log)
  else if r2.parameters.isNone then (Except.error "Missing required field: parameters", log)
  else if invalidParams r2.parameters then
    (Except.error "Invalid parameters: must be a non-empty dictionary.", log)
  else (Except.ok (), log ++ [r2])

/-- Deletes one path from the modelled filesystem.  `os.remove` is modelled
as succeeding; the source catches and logs `OSError` without re-raising, so
no exception escapes either way. -/
def removeFile (fs : String → Bool) (p : String) : String → Bool :=
  fun q => if q = p then false else fs q

/-- The per-record artifact deletion of `DataStore.clean_artifacts`: delete
every image path that exists, then the `artifact_stl_path` if it is truthy
and exists. -/
def cleanOne (run : Record) (fs : String → Bool) : String → Bool :=
  let fs1 := (run.images.getD []).foldl
    (fun g p => if g p then removeFile g p else g) fs
  match run.artifact_stl_path with
  | some p => if p ≠ "" ∧ fs1 p = true then removeFile fs1 p else fs1
  | none => fs1

/-- The keep-id set of `DataStore.clean_artifacts`: ids of the runs to keep
whose dict has an `id` key. -/
def keepIdsOf (keep_runs : List Record) : List String :=
  keep_runs.filterMap (fun r => r.id)

/-- Translation of `DataStore.clean_artifacts`: walk the FULL history in
order and delete the artifacts of every record whose id is not in the keep
set (a record without an id is also cleaned, since `None` is not in the
set).  Returns the filesystem after the call. -/
def clean_artifacts (keep_runs : List Record) (history : List Record)
    (fs : String → Bool) : String → Bool :=
  let keep_ids := keepIdsOf keep_runs
  history.foldl (fun g run =>
    match run.id with
    | some i => if i ∈ keep_ids then g else cleanOne run g
    | none => cleanOne run g) fs

/-- One folding step of `JobManager._get_all_latest_states`: a truthy id
overwrites the map entry for that id. -/
def latestStep (m : String → Option Record) (entry : Record) :
    String → Option Record :=
  match entry.id with
  | some job_id =>
      if job_id = "" then m
      else fun j => if j = job_id then some entry else m j
  | none => m

/-- Translation of `JobManager._get_all_latest_states`: fold the history in
file order, later records overwriting earlier ones for the same id. -/
def get_all_latest_states (history : List Record) : String → Option Record :=
  history.foldl latestStep (fun _ => none)

/-- Translation of `JobManager._get_job_state`. -/
def get_job_state (history : List Record) (job_id : String) : Option Record :=
  get_all_latest_states history job_id

/-- Translation of `JobManager.claim_job`.  The local pre-check reads the
latest state; a missing `status` or `parameters` key on the latest record
would raise `KeyError` in Python (records written by `append_result` always
carry both).  On success the appended record carries the id, the worker id
and the parameters of the latest record, and `append_result` fills in the
timestamp. -/
def claim_job (freshId now : String) (history : List Record)
    (job_id worker_id : String) : Except String (Bool × List Record) :=
  match get_job_state history job_id with
  | none => Except.ok (false, history)
  | some latest =>
    match latest.status with
    | none => Except.error "KeyError: status"
    | some s =>
      if s ≠ "queued" then Except.ok (false, history)
      else
        match latest.parameters with
        | none => Except.error "KeyError: parameters"
        | some params =>
          let entry : Record :=
            { id := some job_id, timestamp := none, status := some "running",
              parameters := some params, worker_id := some worker_id,
              metrics := none, error := none, images := none,
              artifact_stl_path := none }
          match append_result freshId now entry history with
          | (Except.error msg, _) => Except.error msg
          | (Except.ok _, log2) => Except.ok (true, log2)

/-- The scan loop of `verify_claim_leadership` over the events of one job:
the first record with status `running` decides, comparing its `worker_id`
against the candidate (a missing `worker_id` compares unequal to any
string, as `None` does in Python). -/
def verifyScan (events : List Record) (worker_id : String) : Bool :=
  match events with
  | [] => false
  | event :: rest =>
    if event.status == some "running" then event.worker_id == some worker_id
    else verifyScan rest worker_id

/-- Translation of `verify_claim_leadership` from worker.py: filter the
history to the given job id (file order preserved) and scan for the first
`running` record. -/
def verify_claim_leadership (history : List Record)
    (job_id worker_id : String) : Bool :=
  verifyScan (history.filter (fun e => e.id == some job_id)) worker_id

/-- Character-list helper: does the second list start with the first. -/
def chStarts : List Char → List Char → Bool
  | [], _ => true
  | _ :: _, [] => false
  | a :: l1, b :: l2 => a == b && chStarts l1 l2

/-- Character-list helper: does the needle occur anywhere in the haystack. -/
def chHasSub (needle : List Char) : List Char → Bool
  | [] => chStarts needle []
  | b :: l => chStarts needle (b :: l) || chHasSub needle l

/-- The substring test of git_utils.py: the Python expression testing
whether the push output mentions up-to-date. -/
def containsUpToDate (msg : String) : Bool :=
  chHasSub "up-to-date".toList msg.toList

/-- The retry loop of `git_push_with_retry`, with the outcomes of the
external git commands supplied as oracles: `push k` is the (success,
stderr-or-stdout) outcome of the k-th push attempt and `pull k` the success
of the pull-rebase run after the k-th failed attempt.  `fuel` counts the
attempts remaining, `i` the attempts already made. -/
def pushAttempts (push : Nat → Bool × String) (pull : Nat → Bool) :
    Nat → Nat → Bool
  | 0, _ => false
  | fuel + 1, i =>
    if (push i).1 then true
    else if containsUpToDate (push i).2 then true
    else if pull i then pushAttempts push pull fuel (i + 1)
    else false

/-- Translation of `git_push_with_retry` from git_utils.py (default bound
3): at most `max_retries` push attempts, success on a successful push or an
up-to-date message, a pull-rebase between consecutive failed attempts whose
failure aborts with False, and False once the bound is exhausted. -/
def git_push_with_retry (push : Nat → Bool × String) (pull : Nat → Bool)
    (max_retries : Nat) : Bool :=
  pushAttempts push pull max_retries 0

/-- The k-th push attempt terminates the loop successfully: the push
succeeded or its message mentions up-to-date. -/
def pushSucceedsAt (push : Nat → Bool × String) (k : Nat) : Prop :=
  (push k).1 = true ∨ containsUpToDate (push k).2 = true

/-- After the k-th failed push attempt the loop goes on: the attempt did not
terminate the loop and the pull-rebase after it succeeded. -/
def retryContinuesAt (push : Nat → Bool × String) (pull : Nat → Bool)
    (k : Nat) : Prop :=
  ¬ pushSucceedsAt push k ∧ pull k = true

/-- Scenario record: job a created with status queued. -/
def recQ : Record :=
  { id := some "a", timestamp := some "t0", status := some "queued",
    parameters := some (PVal.obj [("x", JVal.num 1)]), worker_id := none,
    metrics := none, error := none, images := none, artifact_stl_path := none }

/-- Scenario record: worker w1 claims job a. -/
def recR1 : Record := { recQ with status := some "running", worker_id := some "w1" }

/-- Scenario record: worker w2 claims job a (the losing race entry). -/
def recR2 : Record := { recQ with status := some "running", worker_id := some "w2" }

/-- Scenario record: job a completed. -/
def recC : Record :=
  { recQ with
    status := some "completed"
    metrics := some [("eff", JVal.num 99)] }

/-- Scenario record: a queued job with id b. -/
def recB : Record := { recQ with id := some "b" }

/-- Scenario log: the claim-race scenario of the spec. -/
def sampleLog : List Record := [recQ, recR1, recR2, recC]

/-- The scan loop of `verify_claim_leadership` is decided by the first
record whose status is running. -/
theorem verifyScan_eq_find? (l : List Record) (w : String) :
    verifyScan l w =
      match l.find? (fun e => e.status == some "running") with
      | some e => e.worker_id == some w
      | none => false := by
  induction l with
  | nil => simp [verifyScan]
  | cons e rest ih =>
    by_cases h : (e.status == some "running") = true <;>
      simp [verifyScan, List.find?_cons, h, ih]

/-- C1: for every log and job id whose records include at least one running
record, with pairwise-distinct worker ids on the running records, claim
verification returns true for exactly the worker id of the first running
record in physical log order (here the first match of `find?` on the
id-filtered history) and false for every other worker id, regardless of
timestamps and later records. -/
theorem at_most_one_claim (history : List Record) (job_id : String)
    (e0 : Record) (w0 : String)
    (hfind : (history.filter (fun e => e.id == some job_id)).find?
      (fun e => e.status == some "running") = some e0)
    (hw0 : e0.worker_id = some w0)
    (hdistinct : ((history.filter (fun e => e.id == some job_id)).filter
      (fun e => e.status == some "running")).Pairwise
        (fun a b => a.worker_id ≠ b.worker_id)) :
    verify_claim_leadership history job_id w0 = true ∧
      ∀ w, w ≠ w0 → verify_claim_leadership history job_id w = false := by
  constructor
  · rw [verify_claim_leadership, verifyScan_eq_find?, hfind]
    simp [hw0]
  · intro w hw
    rw [verify_claim_leadership, verifyScan_eq_find?, hfind]
    simp [hw0]
    exact fun h => hw h.symm

/-- Witness for C1 on the race scenario of the spec: w1 wrote the first
running record, so w1 verifies and w2 does not. -/
theorem at_most_one_claim_witness :
    verify_claim_leadership sampleLog "a" "w1" = true ∧
      verify_claim_leadership sampleLog "a" "w2" = false := by
  have h := at_most_one_claim sampleLog "a" recR1 "w1" (by decide) (by decide)
    (by decide)
  exact ⟨h.1, h.2 "w2" (by decide)⟩

/-- C10: if the log contains no running record for the given job id at all,
claim verification returns false for every worker id. -/
theorem no_running_no_leadership (history : List Record)
    (job_id worker_id : String)
    (h : ∀ e ∈ history, e.id = some job_id → e.status ≠ some "running") :
    verify_claim_leadership history job_id worker_id = false := by
  rw [verify_claim_leadership, verifyScan_eq_find?]
  have hnone : (history.filter (fun e => e.id == some job_id)).find?
      (fun e => e.status == some "running") = none := by
    apply List.find?_eq_none.mpr
    intro e he
    have hmem := List.mem_filter.mp he
    have hne := h e hmem.1 (by simpa using hmem.2)
    simpa using hne
  rw [hnone]

/-- Witness for C10: a log holding only a queued record for job a. -/
theorem no_running_no_leadership_witness :
    verify_claim_leadership [recQ] "a" "w1" = false :=
  no_running_no_leadership [recQ] "a" "w1" (by decide)

/-- Order on finite extended rationals agrees with the rational order. -/
theorem xfin_le_xfin (a b : ℚ) : xfin a ≤ xfin b ↔ a ≤ b := by
  simp [xfin]

/-- Strict order on finite extended rationals agrees with the rational
order. -/
theorem xfin_lt_xfin (a b : ℚ) : xfin a < xfin b ↔ a < b := by
  simp [xfin]

/-- Score of a metrics dict with an error indicator. -/
theorem calculate_score_error :
    calculate_score [("error", JVal.str "x")] =
      mkScore (xfin (-1)) (xfin 0) (xfin 0) (xfin 0) := rfl

/-- Score of an error-free run whose efficiency is below the target (no
pressure metric, so the pressure drop is infinite). -/
theorem calculate_score_eff50 :
    calculate_score [("separation_efficiency", JVal.num 50)] =
      mkScore (xfin 1) (xfin 0) (xfin 50) (⊥ : XRat) := by
  rw [calculate_score, if_neg (by simp [List.lookup])]
  have hno : ¬ xfin TARGET_EFFICIENCY_PERCENT ≤
      metricNum [("separation_efficiency", JVal.num 50)]
        "separation_efficiency" (xfin 0) := by
    show ¬ xfin TARGET_EFFICIENCY_PERCENT ≤ xfin 50
    rw [xfin_le_xfin]
    norm_num [TARGET_EFFICIENCY_PERCENT]
  rw [if_neg hno]
  rfl

/-- Score of an error-free run whose efficiency meets the target (no
pressure metric, so the pressure drop is infinite). -/
theorem calculate_score_eff9996 :
    calculate_score [("separation_efficiency", JVal.num (99.96 : ℚ))] =
      mkScore (xfin 1) (xfin 1) (⊥ : XRat) (xfin (99.96 : ℚ)) := by
  rw [calculate_score, if_neg (by simp [List.lookup])]
  have hyes : xfin TARGET_EFFICIENCY_PERCENT ≤
      metricNum [("separation_efficiency", JVal.num (99.96 : ℚ))]
        "separation_efficiency" (xfin 0) := by
    show xfin TARGET_EFFICIENCY_PERCENT ≤ xfin (99.96 : ℚ)
    rw [xfin_le_xfin]
    norm_num [TARGET_EFFICIENCY_PERCENT]
  rw [if_pos hyes]
  rfl

/-- C6: under the default policy with efficiency threshold 99.95, a run
with an error indicator scores strictly below a run with efficiency 50,
which scores strictly below a run with efficiency 99.96. -/
theorem score_policy_ordering :
    TARGET_EFFICIENCY_PERCENT = (99.95 : ℚ) ∧
    calculate_score [("error", JVal.str "x")] <
      calculate_score [("separation_efficiency", JVal.num 50)] ∧
    calculate_score [("separation_efficiency", JVal.num 50)] <
      calculate_score [("separation_efficiency", JVal.num (99.96 : ℚ))] := by
  refine ⟨rfl, ?_, ?_⟩
  · rw [calculate_score_error, calculate_score_eff50, mkScore, mkScore,
      Prod.Lex.lt_iff]
    left
    exact (xfin_lt_xfin (-1) 1).mpr (by norm_num)
  · rw [calculate_score_eff50, calculate_score_eff9996, mkScore, mkScore,
      Prod.Lex.lt_iff]
    right
    refine ⟨rfl, ?_⟩
    rw [Prod.Lex.lt_iff]
    left
    exact (xfin_lt_xfin 0 1).mpr (by norm_num)

/-- Counterexample for C4: the source sorts the WHOLE history, so a log
whose only record is queued (not a completed latest-state) yields that
queued record as the top run, while the claim says the result holds only
completed latest-states. -/
theorem get_top_runs_counterexample :
    get_top_runs [recQ] 1 = [recQ] ∧ recQ.status = some "queued" ∧
      recQ.status ≠ some "completed" := by decide

/-- C4 amended: `get_top_runs` returns the first n elements of a stable
descending-by-score sort of the ENTIRE history (all records, with records
lacking metrics scored on the empty dict); no filtering to completed
latest-states happens. -/
theorem get_top_runs_amended (history : List Record) (n : Nat) :
    ∃ s : List Record, s.Perm history ∧ s.Pairwise runGe ∧
      get_top_runs history n = s.take n :=
  ⟨List.insertionSort runGe history, List.perm_insertionSort runGe history,
    List.sorted_insertionSort runGe history, rfl⟩

/-- Shared validation lemma for `append_result`: whenever the record carries
some status but its parameters are absent, not a dict, or an empty dict,
the call raises (some validation message) and the log file is returned
unchanged, with nothing written. -/
theorem append_result_invalid (freshId now : String) (r : Record)
    (log : List Record) (hstatus : r.status.isSome = true)
    (hbad : invalidParams r.parameters = true) :
    ∃ msg, append_result freshId now r log = (Except.error msg, log) := by
  obtain ⟨rid, rts, rst, rp, rw1, rm, re1, rim, rstl⟩ := r
  obtain ⟨s, hs⟩ := Option.isSome_iff_exists.mp hstatus
  simp only at hs
  subst hs
  cases rid <;> cases rts <;> cases rp <;> dsimp only at hbad ⊢ <;>
    first
      | exact ⟨"Missing required field: parameters", rfl⟩
      | exact ⟨"Invalid parameters: must be a non-empty dictionary.", by
          simp [append_result, hbad]⟩

/-- C5: appending a create-type record (status queued) whose parameters are
missing, empty or not a mapping raises a ValidationError and leaves the log
file identical to its content before the call; no partial record is
written. -/
theorem append_missing_params_queued (freshId now : String) (r : Record)
    (log : List Record) (hstatus : r.status = some "queued")
    (hbad : invalidParams r.parameters = true) :
    ∃ msg, append_result freshId now r log = (Except.error msg, log) :=
  append_result_invalid freshId now r log (by rw [hstatus]; rfl) hbad

/-- Scenario record: a queued record with no parameters key. -/
def badQRec : Record :=
  { id := some "z", timestamp := some "t0", status := some "queued",
    parameters := none, worker_id := none, metrics := none, error := none,
    images := none, artifact_stl_path := none }

/-- Witness for C5: the queued record without parameters is rejected and
the (empty) log stays empty. -/
theorem append_missing_params_queued_witness :
    ∃ msg, append_result "f" "t1" badQRec [] = (Except.error msg, []) :=
  append_missing_params_queued "f" "t1" badQRec [] rfl (by decide)

/-- C9: the parameters validation of `append_result` applies to every
status, not only to create-type records: a running, completed or failed
record with absent, empty or non-mapping parameters is rejected the same
way and the log is unchanged. -/
theorem append_missing_params_any_status (freshId now : String) (r : Record)
    (log : List Record) (s : String) (hstatus : r.status = some s)
    (hs : s = "running" ∨ s = "completed" ∨ s = "failed")
    (hbad : invalidParams r.parameters = true) :
    ∃ msg, append_result freshId now r log = (Except.error msg, log) :=
  append_result_invalid freshId now r log (by rw [hstatus]; rfl) hbad

/-- Scenario record: a completed record whose parameters key holds an empty
dict. -/
def badCRec : Record :=
  { id := some "z", timestamp := some "t0", status := some "completed",
    parameters := some (PVal.obj []), worker_id := none,
    metrics := some [("eff", JVal.num 1)], error := none, images := none,
    artifact_stl_path := none }

/-- Witness for C9: the completed record with empty parameters is rejected
and the one-record log is unchanged. -/
theorem append_missing_params_any_status_witness :
    ∃ msg, append_result "f" "t1" badCRec [recQ] = (Except.error msg, [recQ]) :=
  append_missing_params_any_status "f" "t1" badCRec [recQ] "completed" rfl
    (Or.inr (Or.inl rfl)) (by decide)

/-- C7: `claim_job` returns false and leaves the log unchanged whenever the
latest state of the job id is absent or is not queued, and when the latest
state is queued (with the non-empty dict parameters every appended record
carries) it appends one running record with the worker id and the
parameters of the job and returns true.  A latest record lacking a status
key would raise KeyError in Python and cannot be produced by
`append_result`, which validates status. -/
theorem claim_job_spec (freshId now : String) (history : List Record)
    (job_id worker_id : String) :
    (get_job_state history job_id = none →
      claim_job freshId now history job_id worker_id =
        Except.ok (false, history)) ∧
    (∀ e s, get_job_state history job_id = some e → e.status = some s →
      s ≠ "queued" →
      claim_job freshId now history job_id worker_id =
        Except.ok (false, history)) ∧
    (∀ e fields, get_job_state history job_id = some e →
      e.status = some "queued" → e.parameters = some (PVal.obj fields) →
      fields ≠ [] →
      claim_job freshId now history job_id worker_id =
        Except.ok (true, history ++
          [{ id := some job_id, timestamp := some now,
             status := some "running",
             parameters := some (PVal.obj fields),
             worker_id := some worker_id, metrics := none, error := none,
             images := none, artifact_stl_path := none }])) := by
  refine ⟨?_, ?_, ?_⟩
  · intro h
    rw [claim_job, h]
  · intro e s he hs hneq
    rw [claim_job, he]
    dsimp only
    rw [hs]
    dsimp only
    rw [if_pos hneq]
  · intro e fields he hs hp hne
    rw [claim_job, he]
    dsimp only
    rw [hs]
    dsimp only
    rw [if_neg (by simp)]
    rw [hp]
    dsimp only
    have hinv : invalidParams (some (PVal.obj fields)) = false := by
      cases fields with
      | nil => exact absurd rfl hne
      | cons a t => rfl
    simp [append_result, hinv]

/-- Witness for C7: claiming the queued job a appends the running record
for w1 and returns true. -/
theorem claim_job_spec_witness :
    claim_job "f" "t1" [recQ] "a" "w1" =
      Except.ok (true, [recQ] ++
        [{ id := some "a", timestamp := some "t1",
           status := some "running",
           parameters := some (PVal.obj [("x", JVal.num 1)]),
           worker_id := some "w1", metrics := none, error := none,
           images := none, artifact_stl_path := none }]) :=
  (claim_job_spec "f" "t1" [recQ] "a" "w1").2.2 recQ [("x", JVal.num 1)]
    (by decide) rfl rfl (by decide)

/-- A record whose id does not match the key leaves the map value at that
key unchanged. -/
theorem latestStep_ne (acc : String → Option Record) (e : Record)
    (j : String) (h : e.id ≠ some j) : latestStep acc e j = acc j := by
  unfold latestStep
  cases hid : e.id with
  | none => rfl
  | some i =>
    by_cases hi : i = ""
    · simp [hi]
    · have : j ≠ i := fun hji => h (by rw [hid, hji])
      simp [hi, this]

/-- No record ever writes the empty-string key (a falsy id is skipped). -/
theorem latestStep_empty_key (acc : String → Option Record) (e : Record) :
    latestStep acc e "" = acc "" := by
  unfold latestStep
  cases e.id with
  | none => rfl
  | some i =>
    by_cases hi : i = ""
    · simp [hi]
    · simp [hi, Ne.symm hi]

/-- The replay map is empty at the empty-string key. -/
theorem latestFold_empty_key (history : List Record)
    (acc : String → Option Record) :
    history.foldl latestStep acc "" = acc "" := by
  induction history generalizing acc with
  | nil => rfl
  | cons e t ih => rw [List.foldl_cons, ih, latestStep_empty_key]

/-- The replay map at a non-empty key is the last record of the history
carrying that id, or the initial value when there is none. -/
theorem latestFold_eq_getLast? (history : List Record)
    (acc : String → Option Record) (j : String) (hj : j ≠ "") :
    history.foldl latestStep acc j =
      match (history.filter (fun e => e.id == some j)).getLast? with
      | some e => some e
      | none => acc j := by
  induction history generalizing acc with
  | nil => simp
  | cons e t ih =>
    rw [List.foldl_cons, ih (latestStep acc e)]
    by_cases hpe : e.id = some j
    · rw [List.filter_cons_of_pos (by simpa using hpe)]
      cases hft : t.filter (fun e => e.id == some j) with
      | nil =>
        show latestStep acc e j = some e
        unfold latestStep
        rw [hpe]
        simp [hj]
      | cons hd tl =>
        rw [List.getLast?_cons_cons]
        cases hgl : (hd :: tl).getLast? with
        | none => simp at hgl
        | some y => rfl
    · rw [List.filter_cons_of_neg (by simpa using hpe)]
      cases hgl : (t.filter (fun e => e.id == some j)).getLast? with
      | none => exact latestStep_ne acc e j hpe
      | some y => rfl

/-- An interleaving of two lists: a shuffle keeping the order within each. -/
inductive Interleaving : List Record → List Record → List Record → Prop where
  | nil : Interleaving [] [] []
  | left : ∀ {a l1 l2 m}, Interleaving l1 l2 m →
      Interleaving (a :: l1) l2 (a :: m)
  | right : ∀ {b l1 l2 m}, Interleaving l1 l2 m →
      Interleaving l1 (b :: l2) (b :: m)

/-- C2: replay determinism.  Any two interleavings of two worker logs that
agree on the per-job-id subsequences (the relative order of records sharing
a job id is preserved) replay to the same latest-state map, regardless of
which log is interleaved first. -/
theorem replay_determinism (l1 l2 s t : List Record)
    (hs : Interleaving l1 l2 s) (ht : Interleaving l1 l2 t)
    (hfilter : ∀ i : String, s.filter (fun e => e.id == some i) =
      t.filter (fun e => e.id == some i)) :
    ∀ j, get_all_latest_states s j = get_all_latest_states t j := by
  intro j
  by_cases hj : j = ""
  · subst hj
    unfold get_all_latest_states
    rw [latestFold_empty_key, latestFold_empty_key]
  · unfold get_all_latest_states
    rw [latestFold_eq_getLast? s _ j hj, latestFold_eq_getLast? t _ j hj,
      hfilter j]

/-- Witness for C2: the two merge orders of the one-record logs of two
workers replay identically. -/
theorem replay_determinism_witness :
    get_all_latest_states [recQ, recB] "a" =
      get_all_latest_states [recB, recQ] "a" := by
  refine replay_determinism [recQ] [recB] [recQ, recB] [recB, recQ]
    (Interleaving.left (Interleaving.right Interleaving.nil))
    (Interleaving.right (Interleaving.left Interleaving.nil)) ?_ "a"
  intro i
  by_cases h1 : ("a" : String) = i <;> by_cases h2 : ("b" : String) = i
  · exact absurd (h1.trans h2.symm) (by decide)
  · subst h1
    decide
  · subst h2
    decide
  · have hb1 : (("a" : String) == i) = false := beq_eq_false_iff_ne.mpr h1
    have hb2 : (("b" : String) == i) = false := beq_eq_false_iff_ne.mpr h2
    simp [recQ, recB, List.filter, hb1, hb2]

/-- Membership of a record in the keep set of `clean_artifacts`: its id is
present and among the keep ids (a record without id is never kept, as
`None` is not in the Python keep set). -/
def keptRun (keep_ids : List String) (run : Record) : Bool :=
  match run.id with
  | some i => keep_ids.contains i
  | none => false

/-- A record references a path: among its images, or as its truthy
`artifact_stl_path`. -/
def refsPathB (run : Record) (p : String) : Bool :=
  decide (p ∈ run.images.getD []) ||
    (decide (run.artifact_stl_path = some p) && decide (p ≠ ""))

/-- Effect of the image-deletion loop of `clean_artifacts` on one path: the
path survives exactly when it was present and is not among the images. -/
theorem delImages_spec (imgs : List String) (fs : String → Bool) (p : String) :
    (imgs.foldl (fun g q => if g q then removeFile g q else g) fs) p =
      (fs p && !(decide (p ∈ imgs))) := by
  induction imgs generalizing fs with
  | nil => simp
  | cons a l ih =>
    rw [List.foldl_cons, ih]
    have hstep : (if fs a = true then removeFile fs a else fs) p =
        (fs p && !(decide (p = a))) := by
      by_cases ha : fs a = true
      · by_cases hpa : p = a
        · subst hpa
          simp [removeFile, ha]
        · simp [removeFile, ha, hpa]
      · have ha2 : fs a = false := by revert ha; cases fs a <;> simp
        by_cases hpa : p = a
        · subst hpa
          simp [ha2]
        · simp [ha2, hpa]
    rw [hstep]
    cases fs p <;>
      simp [List.mem_cons, Bool.decide_or, Bool.not_or, Bool.and_assoc]

/-- Effect of the per-record deletion of `clean_artifacts` on one path: the
path survives exactly when it was present and the record does not reference
it. -/
theorem cleanOne_spec (run : Record) (fs : String → Bool) (p : String) :
    cleanOne run fs p = (fs p && !(refsPathB run p)) := by
  have hfs1 : ∀ q, (run.images.getD []).foldl
      (fun g r => if g r then removeFile g r else g) fs q =
        (fs q && !(decide (q ∈ run.images.getD []))) :=
    fun q => delImages_spec _ fs q
  cases hstl : run.artifact_stl_path with
  | none =>
    have hred : cleanOne run fs = (run.images.getD []).foldl
        (fun g r => if g r then removeFile g r else g) fs := by
      unfold cleanOne
      rw [hstl]
    rw [hred, hfs1]
    simp [refsPathB, hstl]
  | some sp =>
    have hred : cleanOne run fs =
        (let fs1 := (run.images.getD []).foldl
          (fun g r => if g r then removeFile g r else g) fs;
         if sp ≠ "" ∧ fs1 sp = true then removeFile fs1 sp else fs1) := by
      unfold cleanOne
      rw [hstl]
    rw [hred]
    dsimp only
    by_cases hsp : sp = ""
    · rw [if_neg (by simp [hsp])]
      rw [hfs1]
      subst hsp
      by_cases hp : p = ""
      · subst hp
        simp [refsPathB, hstl]
      · simp [refsPathB, hstl, hp, Ne.symm hp]
    · by_cases hfsp : ((run.images.getD []).foldl
          (fun g r => if g r then removeFile g r else g) fs) sp = true
      · rw [if_pos ⟨hsp, hfsp⟩]
        by_cases hpsp : p = sp
        · subst hpsp
          simp [removeFile, refsPathB, hstl, hsp]
        · simp [removeFile, hpsp, hfs1, refsPathB, hstl, Ne.symm hpsp]
      · rw [if_neg (fun hc2 => hfsp hc2.2)]
        rw [hfs1]
        by_cases hpsp : p = sp
        · subst hpsp
          have hff : (fs p && !(decide (p ∈ run.images.getD []))) = false := by
            rw [hfs1] at hfsp
            revert hfsp
            cases (fs p && !(decide (p ∈ run.images.getD []))) <;> simp
          rw [hff]
          simp [refsPathB, hstl, hsp]
        · simp [refsPathB, hstl, Ne.symm hpsp]

/-- Pointwise characterization of `clean_artifacts`: a path survives the
cleanup exactly when it was on disk before and no record outside the keep
set references it.  Record status plays no role at all. -/
theorem clean_artifacts_spec (history keep : List Record)
    (fs : String → Bool) (p : String) :
    clean_artifacts keep history fs p =
      (fs p && !(history.any
        (fun run => !keptRun (keepIdsOf keep) run && refsPathB run p))) := by
  induction history generalizing fs with
  | nil => simp [clean_artifacts]
  | cons r t ih =>
    unfold clean_artifacts at ih ⊢
    rw [List.foldl_cons]
    by_cases hk : keptRun (keepIdsOf keep) r = true
    · cases hid : r.id with
      | none => rw [keptRun, hid] at hk; exact absurd hk (by simp)
      | some i =>
        have hk2 := hk
        rw [keptRun, hid] at hk2
        have hmem : i ∈ keepIdsOf keep := List.elem_iff.mp hk2
        simp only [hid, if_pos hmem]
        rw [ih]
        simp [List.any_cons, hk]
    · have hclean : (match r.id with
          | some i => if i ∈ keepIdsOf keep then fs else cleanOne r fs
          | none => cleanOne r fs) = cleanOne r fs := by
        cases hid : r.id with
        | none => rfl
        | some i =>
          rw [keptRun, hid] at hk
          have hni : i ∉ keepIdsOf keep := by
            intro hmem
            exact hk (List.elem_iff.mpr hmem)
          simp [hni]
      rw [hclean, ih, cleanOne_spec]
      have hk2 : keptRun (keepIdsOf keep) r = false := by
        revert hk; cases keptRun (keepIdsOf keep) r <;> simp
      simp [List.any_cons, hk2, Bool.not_or, Bool.and_assoc]

/-- C3 amended: after `clean_artifacts(keep_runs)` a path is present on
disk exactly when it was present before and every history record that
references it (via images or a truthy stl path) has its id in the keep set.
Record status and latest-state are irrelevant: any non-kept record,
including queued and running ones, has its artifacts deleted, and a path
shared with a kept record is still deleted.  Missing files are tolerated by
the existence check and OSError is caught (deletion modelled as
succeeding). -/
theorem clean_artifacts_amended (keep history : List Record)
    (fs : String → Bool) (p : String) :
    clean_artifacts keep history fs p = true ↔
      (fs p = true ∧ ∀ run ∈ history,
        keptRun (keepIdsOf keep) run = true ∨ refsPathB run p = false) := by
  rw [clean_artifacts_spec]
  simp only [Bool.and_eq_true, Bool.not_eq_true', List.any_eq_false]
  constructor
  · rintro ⟨h1, h2⟩
    refine ⟨h1, fun run hrun => ?_⟩
    have h3 := h2 run hrun
    revert h3
    cases hkk : keptRun (keepIdsOf keep) run <;>
      cases hrr : refsPathB run p <;> simp
  · rintro ⟨h1, h2⟩
    refine ⟨h1, fun run hrun => ?_⟩
    rcases h2 run hrun with hkk | hrr
    · simp [hkk]
    · simp [hrr]

/-- Scenario record: a running (non-terminal) claim for job a that
references the image path q. -/
def recRun : Record :=
  { id := some "a", timestamp := none, status := some "running",
    parameters := none, worker_id := some "w1", metrics := none,
    error := none, images := some ["q"], artifact_stl_path := none }

/-- Scenario record: the completed top run b referencing the image path p. -/
def recTopB : Record :=
  { id := some "b", timestamp := none, status := some "completed",
    parameters := none, worker_id := none, metrics := none, error := none,
    images := some ["p"], artifact_stl_path := none }

/-- Scenario record: a completed run a referencing the same path p as the
top run b. -/
def recOldA : Record := { recTopB with id := some "a" }

/-- Counterexample for C3, falsifying two clauses of the claim on concrete
inputs.  First: job a, whose latest (and only) state is running, hence not
terminal, still has its image q deleted when it is not retained.  Second:
the path p referenced by the retained top run b does not remain present,
because the non-retained run a also references p and its cleanup removes
the file. -/
theorem clean_artifacts_counterexample :
    (clean_artifacts [] [recRun] (fun q => q == "q") "q" = false ∧
      get_all_latest_states [recRun] "a" = some recRun ∧
      recRun.status = some "running") ∧
    (clean_artifacts [recTopB] [recOldA, recTopB] (fun q => q == "p") "p" =
        false ∧
      (fun q => q == "p") "p" = true ∧
      recTopB.images = some ["p"]) := by
  decide

/-- One unfolding: with fuel left, an attempt succeeds outright, succeeds
via an up-to-date message, continues after a successful pull-rebase, or
aborts. -/
theorem pushAttempts_iff (push : Nat → Bool × String) (pull : Nat → Bool) :
    ∀ fuel i, pushAttempts push pull fuel i = true ↔
      ∃ k, k < fuel ∧ pushSucceedsAt push (i + k) ∧
        ∀ j, j < k → retryContinuesAt push pull (i + j) := by
  intro fuel
  induction fuel with
  | zero =>
    intro i
    simp [pushAttempts]
  | succ n ih =>
    intro i
    unfold pushAttempts
    by_cases h1 : (push i).1 = true
    · rw [if_pos h1]
      simp only [true_iff]
      exact ⟨0, Nat.succ_pos n, by simpa [pushSucceedsAt] using Or.inl h1,
        fun j hj => absurd hj (Nat.not_lt_zero j)⟩
    · rw [if_neg h1]
      by_cases h2 : containsUpToDate (push i).2 = true
      · rw [if_pos h2]
        simp only [true_iff]
        exact ⟨0, Nat.succ_pos n, by simpa [pushSucceedsAt] using Or.inr h2,
          fun j hj => absurd hj (Nat.not_lt_zero j)⟩
      · have hns : ¬ pushSucceedsAt push i := by
          rintro (ha | hb)
          · exact h1 ha
          · exact h2 hb
        rw [if_neg h2]
        by_cases h3 : pull i = true
        · rw [if_pos h3, ih (i + 1)]
          constructor
          · rintro ⟨k, hk, hsucc, hcont⟩
            refine ⟨k + 1, by omega, ?_, ?_⟩
            · have harith : i + 1 + k = i + (k + 1) := by omega
              rwa [harith] at hsucc
            · intro j hj
              match j with
              | 0 =>
                simpa using And.intro hns h3
              | j' + 1 =>
                have harith : i + 1 + j' = i + (j' + 1) := by omega
                have := hcont j' (by omega)
                rwa [harith] at this
          · rintro ⟨k, hk, hsucc, hcont⟩
            match k with
            | 0 =>
              exact absurd (by simpa using hsucc) hns
            | k' + 1 =>
              refine ⟨k', by omega, ?_, ?_⟩
              · have harith : i + (k' + 1) = i + 1 + k' := by omega
                rwa [harith] at hsucc
              · intro j hj
                have harith : i + (j + 1) = i + 1 + j := by omega
                have := hcont (j + 1) (by omega)
                rwa [harith] at this
        · rw [if_neg h3]
          refine iff_of_false (by simp) ?_
          rintro ⟨k, hk, hsucc, hcont⟩
          match k with
          | 0 => exact hns (by simpa using hsucc)
          | k' + 1 =>
            have := hcont 0 (by omega)
            rw [Nat.add_zero] at this
            exact h3 this.2

/-- C8: the push-retry loop returns true exactly when some attempt within
the retry bound succeeds (by a successful push or an up-to-date message)
and every earlier attempt failed and was followed by a successful
pull-rebase.  Consequently at most `max_retries` push attempts are ever
consulted, a failing pull-rebase makes the call return false immediately,
and exhausting the bound returns false. -/
theorem git_push_with_retry_spec (push : Nat → Bool × String)
    (pull : Nat → Bool) (max_retries : Nat) :
    git_push_with_retry push pull max_retries = true ↔
      ∃ k, k < max_retries ∧ pushSucceedsAt push k ∧
        ∀ j, j < k → retryContinuesAt push pull j := by
  rw [git_push_with_retry, pushAttempts_iff]
  simp [Nat.zero_add]
